import Mathlib

/-!
Verification of the GPS-tracking ingestion pipeline (tk905 backend).

This file gives a shallow embedding of the ingestion core of the repository:
the per-connection frame extractor (`extractFrames`), the protocol decoder
(`parseFrame` with its helpers `signedCoord` and `toIso`), the policy filter
(`hasUsableCoords`), the per-record routing step of the socket data handler
(`processRec` / `processFrame`), and the pure part of the forwarder (the
outbound request's query parameters and header).

Modelling conventions:
* JS strings are Lean `List Char` (string literals enter through
  `String.data`); splitting and joining are structural recursion mirroring
  `String.prototype.split` with a one-character separator and
  `Array.prototype.join`.
* JS numbers are modelled as `Option JsNum` where `none` stands for `NaN`
  and `JsNum` is an exact decimal (integer numerator over a power-of-ten
  denominator, not normalised; all observations the pipeline makes —
  ordering, zero tests, rounding, decimal rendering — are value-level, so
  the representation is unobservable).  `Number(string)` is modelled by
  `jsNumber`, covering the decimal fragment of the JS string-number grammar
  (optional surrounding whitespace, optional sign, decimal digits with
  optional fraction and exponent, empty string is 0).  Hexadecimal literals
  and the Infinity forms are outside the model; the tracker protocol
  carries plain decimal fields.  With this model every parsed number is a
  finite decimal, so `Number.isFinite` holds exactly on `some` values, and
  the binary-double rounding of JS arithmetic is idealised as exact decimal
  arithmetic.
* `Date.UTC` and `Date.prototype.toISOString` are modelled exactly by the
  proleptic-Gregorian civil-calendar arithmetic of ECMA-262 (MakeDay and
  MakeTime with floor division, the TimeClip bound 8.64e15, rollover of
  out-of-range month/day/hour/minute/second values).
* Effects of the socket data handler (store mutation, JSONL append, forward
  dispatch) are modelled as explicit outputs of a pure step function; the
  wall-clock `receivedAt` field is omitted from the record model since no
  claim mentions it.
-/

/-- ASCII digit test: the character class \d of the JS regexes in the
source (code points 0x30 to 0x39). -/
def isAsciiDigit (c : Char) : Bool := 48 ≤ c.toNat && c.toNat ≤ 57

/-- Value of a digit string, most significant digit first: the integer
value JS assigns to a run of decimal digits. -/
def digitsVal (cs : List Char) : Nat :=
  cs.foldl (fun a c => 10 * a + (c.toNat - 48)) 0

/-- Whitespace stripped by JS `Number(string)` before parsing (the common
ASCII subset of the WhiteSpace and LineTerminator productions). -/
def isJsWhitespace (c : Char) : Bool :=
  c = ' ' || c = '\t' || c = '\n' || c = '\r'

/-- Exact value of a finite JS number as produced by the decimal grammar
and the arithmetic of this pipeline: `num / den` with `den` a positive
power of ten by construction.  The representation is not normalised; every
observation made of it is value-level. -/
structure JsNum where
  num : Int
  den : Nat
deriving DecidableEq, Repr

/-- Negation of a JS number. -/
def jsNeg (x : JsNum) : JsNum := ⟨-x.num, x.den⟩

/-- Absolute value (`Math.abs`). -/
def jsAbs (x : JsNum) : JsNum := ⟨(x.num.natAbs : Int), x.den⟩

/-- Value-level comparison `x <= y` (cross multiplication; denominators are
positive). -/
def jsLe (x y : JsNum) : Bool :=
  decide (x.num * (y.den : Int) ≤ y.num * (x.den : Int))

/-- Value-level test `x === 0`. -/
def jsIsZero (x : JsNum) : Bool := x.num == 0

/-- Value-level test `x < 0` (denominators are positive). -/
def jsIsNeg (x : JsNum) : Bool := decide (x.num < 0)

/-- Exact product of two JS numbers. -/
def jsMul (x y : JsNum) : JsNum := ⟨x.num * y.num, x.den * y.den⟩

/-- Exponent part of the JS decimal number grammar: empty input returns the
mantissa unchanged; otherwise an 'e' or 'E', an optional sign and a
nonempty digit run must consume the whole rest; the exponent scales the
numerator or the denominator by a power of ten. -/
def parseExpTail (base : JsNum) (cs : List Char) : Option JsNum :=
  match cs with
  | [] => some base
  | c :: rest =>
    if c = 'e' ∨ c = 'E' then
      let sd : Bool × List Char :=
        match rest with
        | '+' :: r2 => (false, r2)
        | '-' :: r2 => (true, r2)
        | r2 => (false, r2)
      if sd.2 ≠ [] ∧ sd.2.all isAsciiDigit then
        if sd.1 then some ⟨base.num, base.den * 10 ^ digitsVal sd.2⟩
        else some ⟨base.num * (10 : Int) ^ digitsVal sd.2, base.den⟩
      else none
    else none

/-- Decimal mantissa of the JS number grammar: digits, an optional '.' and
fraction digits (at least one digit overall), then an optional exponent.
The exact value is assembled without division: integer digits shifted by
the fraction length over the matching power of ten. -/
def parseDecMantissa (cs : List Char) : Option JsNum :=
  let ip := cs.takeWhile isAsciiDigit
  let r1 := cs.dropWhile isAsciiDigit
  match r1 with
  | '.' :: r2 =>
    let fp := r2.takeWhile isAsciiDigit
    let r3 := r2.dropWhile isAsciiDigit
    if ip.isEmpty ∧ fp.isEmpty then none
    else parseExpTail
      ⟨(digitsVal ip : Int) * (10 : Int) ^ fp.length + (digitsVal fp : Int),
        10 ^ fp.length⟩ r3
  | _ => if ip.isEmpty then none else parseExpTail ⟨(digitsVal ip : Int), 1⟩ r1

/-- Model of the JS conversion `Number(s)`, restricted to the decimal
grammar (see the header comment): `none` models NaN. -/
def jsNumber (s : List Char) : Option JsNum :=
  let cs := ((s.dropWhile isJsWhitespace).reverse.dropWhile isJsWhitespace).reverse
  match cs with
  | [] => some ⟨0, 1⟩
  | '+' :: r => parseDecMantissa r
  | '-' :: r => (parseDecMantissa r).map jsNeg
  | _ => parseDecMantissa cs

/-- Embeds `signedCoord(v, hemi)` of the source: parse the magnitude with
`Number`, return null on NaN, else force the sign from the hemisphere tag
('S' or 'W' gives the negated absolute value, anything else the absolute
value). -/
def signedCoord (v hemi : List Char) : Option JsNum :=
  match jsNumber v with
  | none => none
  | some n => some (if hemi = ['S'] ∨ hemi = ['W'] then jsNeg (jsAbs n) else jsAbs n)

/-- Day number (days since 1970-01-01) of the civil date (y, m, d) with m a
1-based month in 1..12 and d an arbitrary day offset (day 1 is the first of
the month); this is ECMA-262 MakeDay for integral arguments after month
normalisation, i.e. the day arithmetic behind `Date.UTC` in `toIso`. -/
def daysFromCivil (y m d : Int) : Int :=
  let y2 : Int := if m ≤ 2 then y - 1 else y
  let era : Int := Int.fdiv y2 400
  let yoe : Int := y2 - era * 400
  let mp : Int := if m ≤ 2 then m + 9 else m - 3
  let doy : Int := Int.fdiv (153 * mp + 2) 5 + d - 1
  let doe : Int := yoe * 365 + Int.fdiv yoe 4 - Int.fdiv yoe 100 + doy
  era * 146097 + doe - 719468

/-- Milliseconds since the epoch of `Date.UTC(y, m, d, h, mi, s)` with
integral arguments: the 0-based month is normalised by floor
division/modulus (rollover for out-of-range values), days and time are then
pure arithmetic (ECMA-262 MakeDay and MakeTime). -/
def utcMillis (y m d h mi s : Int) : Int :=
  let ym := y + Int.fdiv m 12
  let mn := Int.emod m 12
  let days := daysFromCivil ym (mn + 1) d
  (((days * 24 + h) * 60 + mi) * 60 + s) * 1000

/-- Inverse civil-calendar conversion used by `toISOString`: from a day
number since the epoch to (year, 1-based month, day). -/
def civilFromDays (z0 : Int) : Int × Int × Int :=
  let z := z0 + 719468
  let era := Int.fdiv z 146097
  let doe := z - era * 146097
  let yoe := Int.fdiv (doe - Int.fdiv doe 1460 + Int.fdiv doe 36524 - Int.fdiv doe 146096) 365
  let y := yoe + era * 400
  let doy := doe - (365 * yoe + Int.fdiv yoe 4 - Int.fdiv yoe 100)
  let mp := Int.fdiv (5 * doy + 2) 153
  let d := doy - Int.fdiv (153 * mp + 2) 5 + 1
  let m := if mp < 10 then mp + 3 else mp - 9
  (if m ≤ 2 then y + 1 else y, m, d)

/-- Decimal digit characters of an integer (a '-' sign first when
negative). -/
def intToChars (n : Int) : List Char :=
  match n with
  | Int.ofNat m => Nat.toDigits 10 m
  | Int.negSucc m => '-' :: Nat.toDigits 10 (m + 1)

/-- Left-pads the decimal rendering of an integer with zeros to width k. -/
def padZeros (k : Nat) (n : Int) : List Char :=
  let s := intToChars n
  List.replicate (k - s.length) '0' ++ s

/-- Model of `Date.prototype.toISOString` for a (clipped) millisecond
timestamp: the "YYYY-MM-DDTHH:mm:ss.sssZ" rendering in UTC. -/
def toIsoString (ms : Int) : List Char :=
  let days := Int.fdiv ms 86400000
  let msd := Int.fmod ms 86400000
  let ymd := civilFromDays days
  let h := Int.fdiv msd 3600000
  let mi := Int.fdiv (Int.fmod msd 3600000) 60000
  let s := Int.fdiv (Int.fmod msd 60000) 1000
  let mil := Int.fmod msd 1000
  padZeros 4 ymd.1 ++ '-' :: padZeros 2 ymd.2.1 ++ '-' :: padZeros 2 ymd.2.2 ++ 'T' ::
    padZeros 2 h ++ ':' :: padZeros 2 mi ++ ':' :: padZeros 2 s ++ '.' :: padZeros 3 mil ++ ['Z']

/-- Test of the source regex /^\d{6}$/: exactly six ASCII digits. -/
def sixDigits (s : List Char) : Bool :=
  s.length == 6 && s.all isAsciiDigit

/-- Value of `Number(s.slice(i, i+2))` for the six-digit strings accepted
by `toIso` (two decimal digits starting at index i). -/
def twoDigitsAt (s : List Char) (i : Nat) : Int :=
  ((10 * ((s.getD i '0').toNat - 48) + ((s.getD (i + 1) '0').toNat - 48) : Nat) : Int)

/-- Timestamp computed by `toIso` from six-digit date and time strings:
`Date.UTC(y, m, d, H, M, S)` where the two-digit slices are day (0), month
(2, decremented to the 0-based month `Date.UTC` takes), year (4, plus
2000), hour (0), minute (2) and second (4). -/
def utcMillisOf (dmy hms : List Char) : Int :=
  utcMillis (twoDigitsAt dmy 4 + 2000) (twoDigitsAt dmy 2 - 1) (twoDigitsAt dmy 0)
    (twoDigitsAt hms 0) (twoDigitsAt hms 2) (twoDigitsAt hms 4)

/-- Embeds `toIso(dmy, hms)` of the source: both arguments must match
/^\d{6}$/ or the result is null; otherwise the result is the
`toISOString` rendering of `Date.UTC(...)` on the six two-digit fields
unless that timestamp is clipped to NaN (|ms| > 8.64e15, the
`Number.isNaN(dt.getTime())` test). -/
def toIso (dmy hms : List Char) : Option (List Char) :=
  if sixDigits dmy && sixDigits hms then
    if (utcMillisOf dmy hms).natAbs ≤ 8640000000000000 then
      some (toIsoString (utcMillisOf dmy hms))
    else none
  else none

/-- Position record decoded from a GPS-bearing frame (9 or more CSV fields
after the command token).  Mirrors the object literal built by
`parseFrame`; the wall-clock `receivedAt` field is omitted (see header). -/
structure PosRec where
  deviceId : List Char
  vendor : List Char
  cmd : List Char
  time : Option (List Char)
  valid : Bool
  lat : Option JsNum
  lon : Option JsNum
  speedKph : Option JsNum
  course : Option JsNum
  raw : List Char
deriving DecidableEq, Repr

/-- Decoded record: either a non-GPS event record (fewer than 9 CSV fields)
with only deviceId/vendor/cmd/raw, or a position record. -/
inductive Rec where
  | event (deviceId vendor cmd raw : List Char)
  | pos (p : PosRec)
deriving DecidableEq, Repr

/-- Device identifier of a decoded record (the store key used by the
socket data handler). -/
def Rec.devId : Rec → List Char
  | Rec.event d _ _ _ => d
  | Rec.pos p => p.deviceId

/-- Latitude field as read by `hasUsableCoords`; an event record has no
such field (it reads as undefined, which is not a finite number). -/
def Rec.latOf : Rec → Option JsNum
  | Rec.event _ _ _ _ => none
  | Rec.pos p => p.lat

/-- Longitude field as read by `hasUsableCoords`. -/
def Rec.lonOf : Rec → Option JsNum
  | Rec.event _ _ _ _ => none
  | Rec.pos p => p.lon

/-- Model of `String.prototype.split` with a one-character separator:
splits at every occurrence, preserving empty pieces; the result is never
empty ("".split(sep) is [""]). -/
def splitOnChar (sep : Char) : List Char → List (List Char)
  | [] => [[]]
  | c :: rest =>
    let r := splitOnChar sep rest
    if c = sep then [] :: r
    else (c :: r.headD []) :: r.tail

/-- Embeds `parseFrame(frame)` of the source.  `frame.slice(1, -1)` strips
the brackets; the body splits on '*' into at least 4 components (else
null); vendor and deviceId are the first two, the third is ignored, and the
payload re-joins everything from the fourth on with '*'.  The payload
splits on ',' into the command token and a CSV tail; fewer than 9 CSV
fields gives an event record, otherwise the fields are read positionally
(date, time, validity flag compared with "A", latitude magnitude and
hemisphere, longitude magnitude and hemisphere, speed, course;
`Number.isFinite` failures on speed or course become null for that field
only, which in the finite-decimal number model is exactly a `jsNumber`
parse failure). -/
def parseFrame (frame : List Char) : Option Rec :=
  let body := (frame.drop 1).dropLast
  let parts := splitOnChar '*' body
  if parts.length < 4 then none
  else
    let vendor := parts.getD 0 []
    let deviceId := parts.getD 1 []
    let payload := List.intercalate ['*'] (parts.drop 3)
    let fields := splitOnChar ',' payload
    let cmd := fields.headD []
    let csv := fields.tail
    if csv.length < 9 then some (Rec.event deviceId vendor cmd payload)
    else
      some (Rec.pos
        { deviceId := deviceId
          vendor := vendor
          cmd := cmd
          time := toIso (csv.getD 0 []) (csv.getD 1 [])
          valid := csv.getD 2 [] == ['A']
          lat := signedCoord (csv.getD 3 []) (csv.getD 4 [])
          lon := signedCoord (csv.getD 5 []) (csv.getD 6 [])
          speedKph := jsNumber (csv.getD 7 [])
          course := jsNumber (csv.getD 8 [])
          raw := payload })

/-- Scanning loop of `extractFrames`: left-to-right over the buffer with
the current partial frame as state.  With state `none` the scan is looking
for the next '[' (mirroring `buf.indexOf('[', ...)`); with state `some acc`
it is inside a frame started at that '[' and looking for the next ']'
(mirroring `buf.indexOf(']', start + 1)`), emitting the inclusive slice
when the ']' is found and emitting nothing for an unterminated trailing
'[' (the loop's break on a missing ']'). -/
def framesAux : List Char → Option (List Char) → List (List Char)
  | [], _ => []
  | c :: rest, none => framesAux rest (if c = '[' then some ['['] else none)
  | c :: rest, some acc =>
    if c = ']' then (acc ++ [']']) :: framesAux rest none
    else framesAux rest (some (acc ++ [c]))

/-- Final scanner state after consuming a buffer (the companion of
`framesAux` used to reason about buffer concatenation). -/
def stAux : List Char → Option (List Char) → Option (List Char)
  | [], st => st
  | c :: rest, none => stAux rest (if c = '[' then some ['['] else none)
  | c :: rest, some acc => stAux rest (if c = ']' then none else some (acc ++ [c]))

/-- Retained tail of `extractFrames`: `buf.lastIndexOf(']')` is -1 exactly
when the buffer has no ']' (then the whole buffer is retained), else the
remainder is everything after the last ']'.  Both cases are the reversed
longest ']'-free suffix of the reversed buffer. -/
def remainderOf (buf : List Char) : List Char :=
  (buf.reverse.takeWhile (fun c => c != ']')).reverse

/-- Embeds `extractFrames(buf)` of the source: the list of complete
bracket-delimited frames in scan order together with the retained tail. -/
def extractFrames (buf : List Char) : List (List Char) × List Char :=
  (framesAux buf none, remainderOf buf)

/-- Per-connection loop of the socket data handler restricted to
buffering: starting from the retained buffer, each delivered chunk is
appended, the frames are extracted and the remainder becomes the new
buffer (`buffer += chunk; ... buffer = remainder`).  Returns all frames in
processing order and the final buffer. -/
def feedChunks : List (List Char) → List Char → List (List Char) × List Char
  | [], r => ([], r)
  | c :: cs, r =>
    let step := extractFrames (r ++ c)
    let rest := feedChunks cs step.2
    (step.1 ++ rest.1, rest.2)

/-- Configuration flags read once at startup that the ingestion core
consults (FORWARD_ENABLED, FORWARD_ONLY_VALID, FORWARD_ALLOW_ZERO_COORDS). -/
structure Config where
  forwardEnabled : Bool
  forwardOnlyValid : Bool
  forwardAllowZeroCoords : Bool
deriving DecidableEq, Repr

/-- Embeds `hasUsableCoords(pos)` of the source, parameterised by the
FORWARD_ALLOW_ZERO_COORDS flag: both coordinate fields must be finite
numbers (in the `Option JsNum` model: present) with |lat| <= 90 and
|lon| <= 180, and unless the flag allows it the pair must not be exactly
(0, 0). -/
def hasUsableCoords (allowZero : Bool) (r : Rec) : Bool :=
  match r.latOf, r.lonOf with
  | some la, some lo =>
    if jsLe (jsAbs la) ⟨90, 1⟩ && jsLe (jsAbs lo) ⟨180, 1⟩ then
      if !allowZero && jsIsZero la && jsIsZero lo then false else true
    else false
  | _, _ => false

/-- Device state entry: either a position record stored wholesale (then it
has no `lastEvent` field), or the shallow merge `(...prev, lastEvent: rec)`
of the socket data handler's else-branch, which keeps whatever position
fields the previous entry had and (over)writes `lastEvent`. -/
structure Entry where
  posFields : Option PosRec
  lastEvent : Option Rec
deriving DecidableEq, Repr

/-- Process-wide `lastPositions` map, device identifier to entry. -/
def Store := List Char → Option Entry

/-- Pointwise update of the store at one key (`lastPositions[id] = e`). -/
def updateStore (store : Store) (id : List Char) (e : Entry) : Store :=
  fun x => if x = id then some e else store x

/-- Effects of routing one decoded record: the new store, the record
appended to the JSONL log (if any), and the record handed to the forwarder
(if any).  The log append and the forward call are fire-and-forget in the
source; here they are recorded as outputs. -/
structure StepResult where
  store : Store
  logged : Option PosRec
  forwarded : Option PosRec

/-- Per-record body of the socket data handler's frame loop: a record with
usable coordinates replaces the device's entry wholesale, is appended to
the log, and is forwarded when FORWARD_ENABLED and the validity policy
(`!FORWARD_ONLY_VALID || pos.valid === true`) allow; any other record is
merged into the existing entry as `lastEvent`.  The usable branch can only
see position records since event records have no coordinate fields, so its
event case (required for totality) is dead code returning the state
unchanged. -/
def processRec (cfg : Config) (store : Store) (r : Rec) : StepResult :=
  if hasUsableCoords cfg.forwardAllowZeroCoords r then
    match r with
    | Rec.pos p =>
      { store := updateStore store p.deviceId { posFields := some p, lastEvent := none }
        logged := some p
        forwarded :=
          if cfg.forwardEnabled && (!cfg.forwardOnlyValid || p.valid)
          then some p else none }
    | Rec.event _ _ _ _ => { store := store, logged := none, forwarded := none }
  else
    { store := updateStore store r.devId
        { posFields := match store r.devId with
            | some e => e.posFields
            | none => none
          lastEvent := some r }
      logged := none
      forwarded := none }

/-- One frame through decode and routing; a decode failure (`parseFrame`
null) is skipped silently, leaving the store untouched. -/
def processFrame (cfg : Config) (store : Store) (frame : List Char) : StepResult :=
  match parseFrame frame with
  | none => { store := store, logged := none, forwarded := none }
  | some r => processRec cfg store r

/-- Fraction digits of num/den (with 0 <= num < den), most significant
first, stopping when the remainder is zero (fuelled long division; every
value this pipeline renders terminates well within the fuel). -/
def fracDigitsAux : Nat → Int → Int → List Char
  | 0, _, _ => []
  | fuel + 1, num, den =>
    if num = 0 then []
    else
      let d := Int.fdiv (num * 10) den
      Char.ofNat (48 + d.toNat) :: fracDigitsAux fuel (Int.fmod (num * 10) den) den

/-- Decimal rendering of a nonnegative JS number (integer part, then a '.'
and the fraction digits when the fraction is nonzero). -/
def jsNumCharsAbs (x : JsNum) : List Char :=
  let ip := Int.fdiv x.num (x.den : Int)
  let r := Int.fmod x.num (x.den : Int)
  let fr := fracDigitsAux 30 r (x.den : Int)
  intToChars ip ++ (if fr.isEmpty then [] else '.' :: fr)

/-- Model of the JS rendering `String(n)` for the finite decimal numbers
this pipeline produces. -/
def jsNumChars (x : JsNum) : List Char :=
  if jsIsNeg x then '-' :: jsNumCharsAbs (jsAbs x) else jsNumCharsAbs x

/-- Rendering of `String(x)` for a nullable number field (JS prints the
null value as "null"; on forwarded records the coordinate fields are
always numbers). -/
def optNumChars (x : Option JsNum) : List Char :=
  match x with
  | none => "null".data
  | some q => jsNumChars q

/-- Embeds `kphToKnots(kph)`: multiplication by the source constant
0.539956803 (idealised as the exact decimal, see header). -/
def kphToKnots (x : JsNum) : JsNum := jsMul x ⟨539956803, 1000000000⟩

/-- Model of `Number.prototype.toFixed(2)` on a nonnegative exact decimal:
round to the nearest hundredth, ties upward (ECMA-262 picks the larger
candidate), and render with exactly two fraction digits.  The rounded
numerator is floor(100x + 1/2) = floor((200 num + den) / (2 den)). -/
def toFixed2Abs (x : JsNum) : List Char :=
  let n : Int := Int.fdiv (200 * x.num + (x.den : Int)) (2 * (x.den : Int))
  intToChars (Int.fdiv n 100) ++ '.' :: padZeros 2 (Int.emod n 100)

/-- Signed `toFixed(2)`: ECMA-262 renders a negative value as '-' followed
by the rendering of its magnitude. -/
def toFixed2 (x : JsNum) : List Char :=
  if jsIsNeg x then '-' :: toFixed2Abs (jsAbs x) else toFixed2Abs x

/-- Query parameters of the outbound forward request, in the insertion
order of `forwardPosition`: id, lat and lon always; timestamp when
`pos.time` is truthy (a nonempty string); valid always (the field is
boolean-typed by construction, so the `typeof` guard always passes);
speed, converted to knots and fixed to two decimals, when `pos.speedKph`
is not null; bearing when `pos.course` is not null. -/
def forwardParams (p : PosRec) : List (List Char × List Char) :=
  [("id".data, p.deviceId), ("lat".data, optNumChars p.lat), ("lon".data, optNumChars p.lon)]
    ++ (match p.time with
        | some t => if t = [] then [] else [("timestamp".data, t)]
        | none => [])
    ++ [("valid".data, if p.valid then "true".data else "false".data)]
    ++ (match p.speedKph with
        | some s => [("speed".data, toFixed2 (kphToKnots s))]
        | none => [])
    ++ (match p.course with
        | some c => [("bearing".data, jsNumChars c)]
        | none => [])

/-- Pure content of the outbound HTTP request built by `forwardPosition`:
the query parameters and the fixed User-Agent header (the network send,
timeout and error swallowing are I/O outside the model). -/
structure ForwardRequest where
  params : List (List Char × List Char)
  userAgent : List Char
deriving DecidableEq, Repr

/-- Request construction of `forwardPosition`. -/
def forwardPositionRequest (p : PosRec) : ForwardRequest :=
  { params := forwardParams p, userAgent := "tk905-forwarder/1.0".data }

/-- Ordered disjoint occurrence: the given substrings appear in the buffer
in order, separated (and surrounded) by arbitrary gaps. -/
inductive Scattered : List Char → List (List Char) → Prop where
  | nil (b : List Char) : Scattered b []
  | cons (g f rest : List Char) (fs : List (List Char)) :
      Scattered rest fs → Scattered (g ++ f ++ rest) (f :: fs)

/-- Characters pending in a scanner state (empty when scanning for '['). -/
def stChars : Option (List Char) → List Char
  | none => []
  | some acc => acc

/-- Test fixture: the empty device state store. -/
def emptyStore : Store := fun _ => none

/-- Test fixture: a position record reporting the zero-coordinate "no fix"
sentinel. -/
def zeroPos : PosRec :=
  { deviceId := "7".data, vendor := "SG".data, cmd := "GPS".data,
    time := none, valid := true, lat := some ⟨0, 1⟩, lon := some ⟨0, 1⟩,
    speedKph := none, course := none, raw := [] }

/-- Test fixture: a usable position record whose fix-validity flag is
false. -/
def invalidFix : PosRec :=
  { deviceId := "9".data, vendor := "SG".data, cmd := "GPS".data,
    time := none, valid := false, lat := some ⟨225, 10⟩, lon := some ⟨1141, 10⟩,
    speedKph := none, course := none, raw := [] }

/-- Test fixture: a fully populated usable position record (the decode of
the spec's example frame). -/
def gpsPos : PosRec :=
  { deviceId := "123456".data, vendor := "SG".data, cmd := "GPS".data,
    time := some "2025-01-01T12:00:00.000Z".data, valid := true,
    lat := some ⟨225, 10⟩, lon := some ⟨1141, 10⟩,
    speedKph := some ⟨360, 10⟩, course := some ⟨90, 1⟩,
    raw := "GPS,010125,120000,A,22.5,N,114.1,E,36.0,90".data }

/-- Test fixture: a non-GPS event record for the same device as `gpsPos`. -/
def alEvent : Rec := Rec.event "123456".data "SG".data "AL".data "AL".data

/-- Test fixture: the spec's example frame. -/
def gpsFrame : List Char :=
  "[SG*123456*XX*GPS,010125,120000,A,22.5,N,114.1,E,36.0,90]".data

/-- Test fixture: a store holding one unrelated device. -/
def seededStore : Store :=
  updateStore emptyStore "999".data { posFields := none, lastEvent := none }

theorem Scattered.prepend {b : List Char} {fs : List (List Char)}
    (x : List Char) (h : Scattered b fs) : Scattered (x ++ b) fs := by
  cases h with
  | nil b => exact Scattered.nil (x ++ b)
  | cons g f rest fs h2 =>
    have := Scattered.cons (x ++ g) f rest fs h2
    simpa [List.append_assoc] using this

theorem framesAux_append (a b : List Char) (st : Option (List Char)) :
    framesAux (a ++ b) st = framesAux a st ++ framesAux b (stAux a st) := by
  induction a generalizing st with
  | nil => simp [framesAux, stAux]
  | cons c rest ih =>
    cases st with
    | none => simp [framesAux, stAux, ih]
    | some acc =>
      by_cases h : c = ']' <;> simp [framesAux, stAux, h, ih]

theorem stAux_append (a b : List Char) (st : Option (List Char)) :
    stAux (a ++ b) st = stAux b (stAux a st) := by
  induction a generalizing st with
  | nil => simp [stAux]
  | cons c rest ih =>
    cases st with
    | none => simp [stAux, ih]
    | some acc => by_cases h : c = ']' <;> simp [stAux, h, ih]

theorem framesAux_eq_nil (a : List Char) (st : Option (List Char))
    (h : ']' ∉ a) : framesAux a st = [] := by
  induction a generalizing st with
  | nil => simp [framesAux]
  | cons c rest ih =>
    have hc : ¬ c = ']' := fun e => h (by simp [e])
    have h2 : ']' ∉ rest := fun m => h (List.mem_cons_of_mem _ m)
    cases st with
    | none => simpa [framesAux] using ih _ h2
    | some acc => simpa [framesAux, hc] using ih _ h2

theorem stAux_after_rbracket (a b : List Char) (st : Option (List Char)) :
    stAux (a ++ ']' :: b) st = stAux b none := by
  induction a generalizing st with
  | nil => cases st <;> simp [stAux]
  | cons c rest ih => cases st <;> simp [stAux, ih]

theorem dropWhile_head_false {p : Char → Bool} {l : List Char} {a : Char}
    {t : List Char} (h : l.dropWhile p = a :: t) : p a = false := by
  induction l with
  | nil => simp [List.dropWhile] at h
  | cons c rest ih =>
    by_cases hc : p c
    · rw [List.dropWhile_cons_of_pos hc] at h; exact ih h
    · rw [List.dropWhile_cons_of_neg hc] at h
      cases h
      simpa using hc

theorem takeWhile_append_of_all {p : Char → Bool} (l1 l2 : List Char)
    (h : ∀ x ∈ l1, p x = true) :
    (l1 ++ l2).takeWhile p = l1 ++ l2.takeWhile p := by
  induction l1 with
  | nil => simp
  | cons c rest ih =>
    have hc : p c = true := h c (by simp)
    simp only [List.cons_append, List.takeWhile_cons_of_pos hc]
    simpa using ih (fun x hx => h x (List.mem_cons_of_mem _ hx))

theorem not_rbracket_mem_remainderOf (buf : List Char) :
    ']' ∉ remainderOf buf := by
  intro h
  have h2 : ']' ∈ buf.reverse.takeWhile (fun c => c != ']') := by
    simpa [remainderOf] using h
  have h3 := List.mem_takeWhile_imp h2
  simp at h3

theorem remainderOf_eq_self (buf : List Char) (h : ']' ∉ buf) :
    remainderOf buf = buf := by
  have h2 : buf.reverse.takeWhile (fun c => c != ']') = buf.reverse :=
    List.takeWhile_eq_self_iff.mpr (by
      intro x hx
      have : x ∈ buf := by simpa using hx
      simp
      rintro rfl
      exact h this)
  simp [remainderOf, h2]

theorem remainderOf_decomp (buf : List Char) (h : ']' ∈ buf) :
    ∃ a, buf = a ++ ']' :: remainderOf buf := by
  rcases hdw : buf.reverse.dropWhile (fun c => c != ']') with _ | ⟨d, t⟩
  · exfalso
    have hall := List.dropWhile_eq_nil_iff.mp hdw
    have h9 : (']' : Char) ∈ buf.reverse := by simpa using h
    have := hall _ h9
    simp at this
  · have hd : d = ']' := by
      have := dropWhile_head_false hdw
      simpa using this
    subst hd
    refine ⟨t.reverse, ?_⟩
    have hsplit := List.takeWhile_append_dropWhile (fun c => c != ']') buf.reverse
    rw [hdw] at hsplit
    nth_rewrite 1 [← List.reverse_reverse buf]
    rw [← hsplit]
    simp [remainderOf, List.reverse_append]

theorem stAux_remainderOf (x : List Char) :
    stAux (remainderOf x) none = stAux x none := by
  by_cases h : ']' ∈ x
  · obtain ⟨a, ha⟩ := remainderOf_decomp x h
    conv_rhs => rw [ha]
    rw [stAux_after_rbracket]
  · rw [remainderOf_eq_self x h]

theorem framesAux_remainderOf (x : List Char) :
    framesAux (remainderOf x) none = [] :=
  framesAux_eq_nil _ _ (not_rbracket_mem_remainderOf x)

theorem takeWhile_append_of_mem_false {p : Char → Bool} (l1 l2 : List Char)
    (a : Char) (ha1 : a ∈ l1) (ha2 : ¬ p a = true) :
    (l1 ++ l2).takeWhile p = l1.takeWhile p := by
  induction l1 with
  | nil => simp at ha1
  | cons c rest ih =>
    rcases List.mem_cons.mp ha1 with rfl | hmem
    · rw [List.cons_append, List.takeWhile_cons_of_neg ha2,
        List.takeWhile_cons_of_neg ha2]
    · by_cases hc : p c = true
      · rw [List.cons_append, List.takeWhile_cons_of_pos hc,
          List.takeWhile_cons_of_pos hc, ih hmem]
      · rw [List.cons_append, List.takeWhile_cons_of_neg hc,
          List.takeWhile_cons_of_neg hc]

theorem remainderOf_append (x y : List Char) :
    remainderOf (x ++ y) =
      if ']' ∈ y then remainderOf y else remainderOf x ++ y := by
  by_cases h : ']' ∈ y
  · have h9 : (']' : Char) ∈ y.reverse := by simpa using h
    have key := takeWhile_append_of_mem_false (p := fun c => c != ']')
      y.reverse x.reverse ']' h9 (by simp)
    simp [remainderOf, List.reverse_append, key, h]
  · have key := takeWhile_append_of_all (p := fun c => c != ']') y.reverse x.reverse
      (by
        intro z hz
        have hz2 : z ∈ y := by simpa using hz
        simp
        rintro rfl
        exact h hz2)
    simp [remainderOf, List.reverse_append, key, h]

theorem extractFrames_append (x y : List Char) :
    extractFrames (x ++ y) =
      ((extractFrames x).1 ++ (extractFrames (remainderOf x ++ y)).1,
       (extractFrames (remainderOf x ++ y)).2) := by
  unfold extractFrames
  refine Prod.ext ?_ ?_
  · simp only [framesAux_append, framesAux_remainderOf, stAux_remainderOf,
      List.nil_append]
  · simp only []
    rw [remainderOf_append x y, remainderOf_append (remainderOf x) y,
      remainderOf_eq_self (remainderOf x) (not_rbracket_mem_remainderOf x)]

theorem feedChunks_eq (cs : List (List Char)) (r : List Char) (h : ']' ∉ r) :
    feedChunks cs r = extractFrames (r ++ cs.flatten) := by
  induction cs generalizing r with
  | nil =>
    simp [feedChunks, extractFrames, framesAux_eq_nil _ _ h,
      remainderOf_eq_self _ h]
  | cons c cs ih =>
    have h2 := ih (remainderOf (r ++ c)) (not_rbracket_mem_remainderOf _)
    have hsnd : (extractFrames (r ++ c)).2 = remainderOf (r ++ c) := rfl
    simp only [feedChunks, List.flatten_cons, ← List.append_assoc]
    rw [extractFrames_append (r ++ c) cs.flatten, hsnd, h2]

theorem framesAux_shape (buf : List Char) (st : Option (List Char))
    (hst : ∀ acc, st = some acc → ∃ mid, acc = '[' :: mid ∧ ']' ∉ mid) :
    ∀ f ∈ framesAux buf st, ∃ mid, f = '[' :: mid ++ [']'] ∧ ']' ∉ mid := by
  induction buf generalizing st with
  | nil => simp [framesAux]
  | cons c rest ih =>
    cases st with
    | none =>
      intro f hf
      rw [show framesAux (c :: rest) none
          = framesAux rest (if c = '[' then some ['['] else none) from rfl] at hf
      refine ih _ ?_ f hf
      intro acc hacc
      by_cases hc : c = '['
      · rw [if_pos hc] at hacc
        cases hacc
        exact ⟨[], rfl, by simp⟩
      · rw [if_neg hc] at hacc
        cases hacc
    | some acc =>
      obtain ⟨mid, hmid, hnr⟩ := hst acc rfl
      intro f hf
      by_cases hc : c = ']'
      · subst hc
        rw [show framesAux (']' :: rest) (some acc)
            = (acc ++ [']']) :: framesAux rest none from rfl] at hf
        rcases List.mem_cons.mp hf with rfl | hf2
        · exact ⟨mid, by simp [hmid], hnr⟩
        · exact ih none (by intro a ha; cases ha) f hf2
      · rw [show framesAux (c :: rest) (some acc)
            = if c = ']' then (acc ++ [']']) :: framesAux rest none
              else framesAux rest (some (acc ++ [c])) from rfl, if_neg hc] at hf
        refine ih _ ?_ f hf
        intro a ha
        cases ha
        refine ⟨mid ++ [c], by simp [hmid], ?_⟩
        intro hm
        rcases List.mem_append.mp hm with hm2 | hm2
        · exact hnr hm2
        · simp at hm2
          exact hc hm2.symm

theorem framesAux_scattered (buf : List Char) (st : Option (List Char)) :
    Scattered (stChars st ++ buf) (framesAux buf st) := by
  induction buf generalizing st with
  | nil =>
    rw [show framesAux [] st = [] from rfl]
    exact Scattered.nil _
  | cons c rest ih =>
    cases st with
    | none =>
      by_cases hc : c = '['
      · subst hc
        have := ih (some ['['])
        simpa [framesAux, stChars] using this
      · have := Scattered.prepend [c] (by simpa [stChars] using ih none)
        simpa [framesAux, hc, stChars] using this
    | some acc =>
      by_cases hc : c = ']'
      · subst hc
        have := Scattered.cons [] (acc ++ [']']) rest (framesAux rest none)
          (by simpa [stChars] using ih none)
        simpa [framesAux, stChars, List.append_assoc] using this
      · have := ih (some (acc ++ [c]))
        simpa [framesAux, hc, stChars, List.append_assoc] using this

/-- C1: for every byte string and every way of splitting it into a
sequence of chunks, feeding the chunks one at a time through the
per-connection buffer-append-then-extractFrames loop yields exactly the
same ordered sequence of frames — and hence the same decoded records — as
delivering the whole string as a single chunk. -/
theorem frames_chunk_boundary_independent (chunks : List (List Char)) :
    feedChunks chunks [] = extractFrames chunks.flatten ∧
    (feedChunks chunks []).1.map parseFrame
      = (extractFrames chunks.flatten).1.map parseFrame := by
  have h := feedChunks_eq chunks [] (by simp)
  rw [List.nil_append] at h
  exact ⟨h, by rw [h]⟩

/-- C10: every frame emitted by extractFrames begins with '[', ends with
']' and contains no ']' before its final character; the frames occur
disjointly in the buffer in emission order; and the returned remainder is
a suffix of the buffer that contains no ']' at all, equal to the whole
buffer exactly when the buffer contains no ']'. -/
theorem extractFrames_invariants (buf : List Char) :
    (∀ f ∈ (extractFrames buf).1, ∃ mid, f = '[' :: mid ++ [']'] ∧ ']' ∉ mid) ∧
    Scattered buf (extractFrames buf).1 ∧
    (∃ pre, buf = pre ++ (extractFrames buf).2) ∧
    ']' ∉ (extractFrames buf).2 ∧
    ((extractFrames buf).2 = buf ↔ ']' ∉ buf) := by
  refine ⟨?_, ?_, ?_, not_rbracket_mem_remainderOf buf, ?_, ?_⟩
  · exact framesAux_shape buf none (by intro acc h; cases h)
  · have := framesAux_scattered buf none
    simpa [stChars, extractFrames] using this
  · refine ⟨(buf.reverse.dropWhile (fun c => c != ']')).reverse, ?_⟩
    have h6 := congrArg List.reverse
      (List.takeWhile_append_dropWhile (fun c => c != ']') buf.reverse)
    rw [List.reverse_append, List.reverse_reverse] at h6
    exact h6.symm
  · intro he
    have h2 := not_rbracket_mem_remainderOf buf
    rw [show (extractFrames buf).2 = remainderOf buf from rfl] at he
    rw [he] at h2
    exact h2
  · exact fun h => remainderOf_eq_self buf h

/-- Witness for C10 at a concrete buffer: the emitted frame `[x[b]` starts
with '[', ends with ']' and has no inner ']'; the frames occur in order;
the remainder `z[` is a ']'-free suffix and differs from the buffer (which
contains ']'). -/
theorem extractFrames_invariants_witness :
    (∃ mid, "[x[b]".data = '[' :: mid ++ [']'] ∧ ']' ∉ mid) ∧
    Scattered "a][x[b]y[c]z[".data (extractFrames "a][x[b]y[c]z[".data).1 ∧
    (∃ pre, "a][x[b]y[c]z[".data = pre ++ (extractFrames "a][x[b]y[c]z[".data).2) ∧
    ']' ∉ (extractFrames "a][x[b]y[c]z[".data).2 := by
  obtain ⟨h1, h2, h3, h4, h5⟩ := extractFrames_invariants "a][x[b]y[c]z[".data
  exact ⟨h1 "[x[b]".data (by decide), h2, h3, h4⟩

theorem isAsciiDigit_toNat {c : Char} (h : isAsciiDigit c = true) :
    48 ≤ c.toNat ∧ c.toNat ≤ 57 := by
  simpa [isAsciiDigit] using h

theorem getD_all {p : Char → Bool} {l : List Char} (h : l.all p = true)
    (i : Nat) {d : Char} (hd : p d = true) : p (l.getD i d) = true := by
  induction l generalizing i with
  | nil => simpa [List.getD] using hd
  | cons c rest ih =>
    rw [List.all_cons, Bool.and_eq_true] at h
    cases i with
    | zero => simpa [List.getD] using h.1
    | succ n => simpa [List.getD] using ih h.2 n

theorem twoDigitsAt_bounds {s : List Char} (h : s.all isAsciiDigit = true)
    (i : Nat) : 0 ≤ twoDigitsAt s i ∧ twoDigitsAt s i ≤ 99 := by
  have h1 := getD_all h i (d := '0') (by decide)
  have h2 := getD_all h (i + 1) (d := '0') (by decide)
  obtain ⟨h1a, h1b⟩ := isAsciiDigit_toNat h1
  obtain ⟨h2a, h2b⟩ := isAsciiDigit_toNat h2
  unfold twoDigitsAt
  omega

theorem daysFromCivil_bounds (y m d : Int) (hy1 : 1999 ≤ y) (hy2 : y ≤ 2107)
    (hm1 : 1 ≤ m) (hm2 : m ≤ 12) (hd1 : 0 ≤ d) (hd2 : d ≤ 99) :
    -200000 ≤ daysFromCivil y m d ∧ daysFromCivil y m d ≤ 200000 := by
  simp only [daysFromCivil]
  split_ifs with hm <;>
    simp only [Int.fdiv_eq_ediv _ (by norm_num : (0:ℤ) ≤ 400),
      Int.fdiv_eq_ediv _ (by norm_num : (0:ℤ) ≤ 5),
      Int.fdiv_eq_ediv _ (by norm_num : (0:ℤ) ≤ 4),
      Int.fdiv_eq_ediv _ (by norm_num : (0:ℤ) ≤ 100)] <;>
    omega

theorem utcMillis_bounds (y m d h mi s : Int)
    (hy1 : 2000 ≤ y) (hy2 : y ≤ 2099) (hm1 : -1 ≤ m) (hm2 : m ≤ 98)
    (hd1 : 0 ≤ d) (hd2 : d ≤ 99) (hh1 : 0 ≤ h) (hh2 : h ≤ 99)
    (hmi1 : 0 ≤ mi) (hmi2 : mi ≤ 99) (hs1 : 0 ≤ s) (hs2 : s ≤ 99) :
    (utcMillis y m d h mi s).natAbs ≤ 8640000000000000 := by
  simp only [utcMillis]
  rw [Int.fdiv_eq_ediv _ (by norm_num : (0:ℤ) ≤ 12),
    show Int.emod m 12 = m % 12 from rfl]
  have hdays := daysFromCivil_bounds (y + m / 12) (m % 12 + 1) d
    (by omega) (by omega) (by omega) (by omega) hd1 hd2
  omega

/-- C2 counterexample: at the concrete input ("999999", "000000") — whose
month field 99 and day field 99 encode no representable calendar date —
the code does not return null: `Date.UTC` rolls the out-of-range fields
over and `toIso` returns the ISO rendering of 2107-06-07T00:00:00Z. -/
theorem toIso_rollover_not_null :
    toIso "999999".data "000000".data = some "2107-06-07T00:00:00.000Z".data := by
  decide

/-- C2 (amended): toIso returns null exactly when one of its arguments is
not six ASCII digits; on six-digit inputs the out-of-range field values
are normalised by calendar rollover (the `Date.UTC` semantics) rather than
rejected, and the result is never null — in particular
toIso("010125","235959") is the instant 2025-01-01T23:59:59Z,
toIso("12345","000000") is null (wrong length), and
toIso("999999","000000") is the rolled-over instant 2107-06-07T00:00:00Z. -/
theorem toIso_null_iff_malformed :
    (∀ dmy hms, (toIso dmy hms = none ↔ (sixDigits dmy && sixDigits hms) = false)) ∧
    toIso "010125".data "235959".data = some "2025-01-01T23:59:59.000Z".data ∧
    toIso "12345".data "000000".data = none ∧
    toIso "999999".data "000000".data = some "2107-06-07T00:00:00.000Z".data := by
  refine ⟨?_, by decide, by decide, by decide⟩
  intro dmy hms
  by_cases h : (sixDigits dmy && sixDigits hms) = true
  · have h2 := h
    simp only [sixDigits, Bool.and_eq_true] at h2
    have hda : dmy.all isAsciiDigit = true := h2.1.2
    have hha : hms.all isAsciiDigit = true := h2.2.2
    obtain ⟨hd0a, hd0b⟩ := twoDigitsAt_bounds hda 0
    obtain ⟨hd2a, hd2b⟩ := twoDigitsAt_bounds hda 2
    obtain ⟨hd4a, hd4b⟩ := twoDigitsAt_bounds hda 4
    obtain ⟨hh0a, hh0b⟩ := twoDigitsAt_bounds hha 0
    obtain ⟨hh2a, hh2b⟩ := twoDigitsAt_bounds hha 2
    obtain ⟨hh4a, hh4b⟩ := twoDigitsAt_bounds hha 4
    have hb : (utcMillisOf dmy hms).natAbs ≤ 8640000000000000 := by
      unfold utcMillisOf
      exact utcMillis_bounds (twoDigitsAt dmy 4 + 2000) (twoDigitsAt dmy 2 - 1)
        (twoDigitsAt dmy 0) (twoDigitsAt hms 0) (twoDigitsAt hms 2) (twoDigitsAt hms 4)
        (by omega) (by omega) (by omega) (by omega) hd0a hd0b
        hh0a hh0b hh2a hh2b hh4a hh4b
    simp only [toIso, h, if_true]
    rw [if_pos hb]
    simp [h]
  · rw [Bool.not_eq_true] at h
    simp [toIso, h]

/-- C3: for every magnitude string and hemisphere tag, signedCoord is null
exactly when Number parsing fails, and otherwise yields the negated
absolute value for 'S' or 'W' and the absolute value for any other tag —
so the hemisphere determines the sign even when the device sends an
already-negative magnitude; with the spec's examples
signedCoord("10.5","S") = -10.5, signedCoord("10.5","N") = 10.5 and
signedCoord("abc","N") = null. -/
theorem signedCoord_spec :
    (∀ v hemi, signedCoord v hemi
      = (jsNumber v).map
          (fun n => if hemi = ['S'] ∨ hemi = ['W'] then jsNeg (jsAbs n) else jsAbs n)) ∧
    signedCoord "10.5".data "S".data = some ⟨-105, 10⟩ ∧
    signedCoord "10.5".data "N".data = some ⟨105, 10⟩ ∧
    signedCoord "abc".data "N".data = none ∧
    signedCoord "-10.5".data "N".data = some ⟨105, 10⟩ := by
  refine ⟨?_, by decide, by decide, by decide, by decide⟩
  intro v hemi
  unfold signedCoord
  cases jsNumber v <;> simp

/-- C4: parseFrame strips the brackets and splits the body on '*': fewer
than 4 components is a decode failure (null); with at least 4, the payload
is the '*'-rejoined tail from the fourth component on, split on ',' with
the first token as cmd; fewer than 9 remaining CSV fields yields an event
record holding exactly deviceId, vendor, cmd and raw; at least 9 yields a
position record with the fields read positionally (date, time, validity
flag 'A', latitude magnitude, N/S, longitude magnitude, E/W, speed,
course, where a speed or course that fails numeric parsing becomes null
for that field only), and the example frame decodes to deviceId "123456",
valid, lat 22.5, lon 114.1, speed 36 km/h, course 90, at
2025-01-01T12:00:00Z. -/
theorem parseFrame_spec :
    (∀ frame parts, parts = splitOnChar '*' ((frame.drop 1).dropLast) →
      (parts.length < 4 → parseFrame frame = none) ∧
      (4 ≤ parts.length →
        ∀ payload fields, payload = List.intercalate ['*'] (parts.drop 3) →
          fields = splitOnChar ',' payload →
          (fields.tail.length < 9 →
            parseFrame frame
              = some (Rec.event (parts.getD 1 []) (parts.getD 0 [])
                  (fields.headD []) payload)) ∧
          (9 ≤ fields.tail.length →
            parseFrame frame = some (Rec.pos
              { deviceId := parts.getD 1 []
                vendor := parts.getD 0 []
                cmd := fields.headD []
                time := toIso (fields.tail.getD 0 []) (fields.tail.getD 1 [])
                valid := fields.tail.getD 2 [] == ['A']
                lat := signedCoord (fields.tail.getD 3 []) (fields.tail.getD 4 [])
                lon := signedCoord (fields.tail.getD 5 []) (fields.tail.getD 6 [])
                speedKph := jsNumber (fields.tail.getD 7 [])
                course := jsNumber (fields.tail.getD 8 [])
                raw := payload })))) ∧
    parseFrame "[SG*123456*XX*GPS,010125,120000,A,22.5,N,114.1,E,36.0,90]".data
      = some (Rec.pos
        { deviceId := "123456".data, vendor := "SG".data, cmd := "GPS".data,
          time := some "2025-01-01T12:00:00.000Z".data, valid := true,
          lat := some ⟨225, 10⟩, lon := some ⟨1141, 10⟩,
          speedKph := some ⟨360, 10⟩, course := some ⟨90, 1⟩,
          raw := "GPS,010125,120000,A,22.5,N,114.1,E,36.0,90".data }) := by
  constructor
  · rintro frame parts rfl
    constructor
    · intro hlt
      simp only [parseFrame]
      rw [if_pos hlt]
    · rintro hge payload fields rfl rfl
      constructor
      · intro hlt
        simp only [parseFrame]
        rw [if_neg (by omega), if_pos hlt]
      · intro hge2
        simp only [parseFrame]
        rw [if_neg (by omega), if_neg (by omega)]
  · decide

/-- Witness for C4: a frame with fewer than 4 components is dropped, and a
short-payload frame decodes to the event record with exactly the four
fields. -/
theorem parseFrame_spec_witness :
    parseFrame "[a*b]".data = none ∧
    parseFrame "[SG*123456*XX*AL]".data
      = some (Rec.event "123456".data "SG".data "AL".data "AL".data) := by
  have h := parseFrame_spec
  refine ⟨(h.1 "[a*b]".data _ rfl).1 (by decide), ?_⟩
  have h2 := ((h.1 "[SG*123456*XX*AL]".data _ rfl).2 (by decide)
    _ _ rfl rfl).1 (by decide)
  exact h2.trans (by decide)

theorem updateStore_ne (store : Store) (id : List Char) (e : Entry)
    (d : List Char) (h : d ≠ id) : updateStore store id e d = store d := by
  simp [updateStore, h]

theorem updateStore_isSome (store : Store) (id : List Char) (e : Entry)
    (d : List Char) (h : (store d).isSome = true) :
    ((updateStore store id e d).isSome) = true := by
  unfold updateStore
  by_cases hd : d = id <;> simp [hd, h]

/-- C5: hasUsableCoords holds exactly when both coordinates are present
finite numbers with |lat| <= 90 and |lon| <= 180 and — unless the
allow-zero-coordinates flag is set — the pair is not exactly (0, 0);
consequently a position record with lat = 0 and lon = 0 is not stored as a
position, not logged and not forwarded when the flag is off (it is merged
into the entry as lastEvent), and is stored wholesale, logged, and
forwarded subject only to the forwarding gates when the flag is on. -/
theorem hasUsableCoords_spec :
    (∀ az r, hasUsableCoords az r = true ↔
      (∃ p la lo, r = Rec.pos p ∧ p.lat = some la ∧ p.lon = some lo ∧
        jsLe (jsAbs la) ⟨90, 1⟩ = true ∧ jsLe (jsAbs lo) ⟨180, 1⟩ = true ∧
        (az = true ∨ jsIsZero la = false ∨ jsIsZero lo = false))) ∧
    (∀ cfg store p la lo,
      p.lat = some la → p.lon = some lo →
      jsIsZero la = true → jsIsZero lo = true →
      (cfg.forwardAllowZeroCoords = false →
        (processRec cfg store (Rec.pos p)).logged = none ∧
        (processRec cfg store (Rec.pos p)).forwarded = none ∧
        (processRec cfg store (Rec.pos p)).store p.deviceId
          = some { posFields := (match store p.deviceId with
                     | some e => e.posFields
                     | none => none)
                   lastEvent := some (Rec.pos p) }) ∧
      (cfg.forwardAllowZeroCoords = true →
        (processRec cfg store (Rec.pos p)).logged = some p ∧
        (processRec cfg store (Rec.pos p)).store p.deviceId
          = some { posFields := some p, lastEvent := none } ∧
        (processRec cfg store (Rec.pos p)).forwarded
          = (if cfg.forwardEnabled && (!cfg.forwardOnlyValid || p.valid)
             then some p else none))) := by
  constructor
  · intro az r
    cases r with
    | event d v c raw => simp [hasUsableCoords, Rec.latOf, Rec.lonOf]
    | pos p =>
      cases hla : p.lat with
      | none => simp [hasUsableCoords, Rec.latOf, Rec.lonOf, hla]
      | some la =>
        cases hlo : p.lon with
        | none => simp [hasUsableCoords, Rec.latOf, Rec.lonOf, hla, hlo]
        | some lo =>
          simp only [hasUsableCoords, Rec.latOf, Rec.lonOf, hla, hlo]
          cases hle1 : jsLe (jsAbs la) ⟨90, 1⟩ <;>
            cases hle2 : jsLe (jsAbs lo) ⟨180, 1⟩ <;>
            cases az <;>
            cases hz1 : jsIsZero la <;>
            cases hz2 : jsIsZero lo <;>
            simp [hla, hlo, hle1, hle2, hz1, hz2]
  · intro cfg store p la lo hla hlo hz1 hz2
    have hnla : la.num = 0 := by simpa [jsIsZero] using hz1
    have hnlo : lo.num = 0 := by simpa [jsIsZero] using hz2
    have hA1 : jsLe (jsAbs la) ⟨90, 1⟩ = true := by
      simp only [jsLe, jsAbs, hnla, decide_eq_true_eq]
      simp
    have hA2 : jsLe (jsAbs lo) ⟨180, 1⟩ = true := by
      simp only [jsLe, jsAbs, hnlo, decide_eq_true_eq]
      simp
    constructor
    · intro hcfg
      have hu : hasUsableCoords cfg.forwardAllowZeroCoords (Rec.pos p) = false := by
        simp [hasUsableCoords, Rec.latOf, Rec.lonOf, hla, hlo, hA1, hA2,
          hz1, hz2, hcfg]
      unfold processRec
      rw [hu]
      refine ⟨rfl, rfl, ?_⟩
      simp [updateStore, Rec.devId]
    · intro hcfg
      have hu : hasUsableCoords cfg.forwardAllowZeroCoords (Rec.pos p) = true := by
        simp [hasUsableCoords, Rec.latOf, Rec.lonOf, hla, hlo, hA1, hA2, hcfg]
      unfold processRec
      rw [hu]
      refine ⟨rfl, ?_, rfl⟩
      simp [updateStore]

/-- Witness for C5 at a concrete zero-coordinate position record: with the
allow-zero flag off the record is neither logged nor forwarded; with the
flag on it is logged. -/
theorem hasUsableCoords_spec_witness :
    (processRec ⟨true, false, false⟩ emptyStore (Rec.pos zeroPos)).logged = none ∧
    (processRec ⟨true, false, false⟩ emptyStore (Rec.pos zeroPos)).forwarded = none ∧
    (processRec ⟨true, false, true⟩ emptyStore (Rec.pos zeroPos)).logged = some zeroPos := by
  have h1 := (hasUsableCoords_spec.2 ⟨true, false, false⟩ emptyStore zeroPos
    ⟨0, 1⟩ ⟨0, 1⟩ rfl rfl (by decide) (by decide)).1 rfl
  have h2 := (hasUsableCoords_spec.2 ⟨true, false, true⟩ emptyStore zeroPos
    ⟨0, 1⟩ ⟨0, 1⟩ rfl rfl (by decide) (by decide)).2 rfl
  exact ⟨h1.1, h1.2.1, h2.1⟩

/-- C6: a usable position record is forwarded exactly when the global
forward-enabled flag is set and either the forward-only-valid policy is
off or the record's validity flag is true; in every case the usable record
is still logged and stored wholesale, so with forward-only-valid on an
invalid usable record is stored and logged but not forwarded, and with it
off the record is forwarded whenever forwarding is enabled. -/
theorem forward_policy_spec (cfg : Config) (store : Store) (p : PosRec)
    (h : hasUsableCoords cfg.forwardAllowZeroCoords (Rec.pos p) = true) :
    ((processRec cfg store (Rec.pos p)).forwarded = some p ↔
      (cfg.forwardEnabled = true ∧
        (cfg.forwardOnlyValid = false ∨ p.valid = true))) ∧
    (processRec cfg store (Rec.pos p)).logged = some p ∧
    (processRec cfg store (Rec.pos p)).store p.deviceId
      = some { posFields := some p, lastEvent := none } ∧
    (cfg.forwardOnlyValid = true → p.valid = false →
      (processRec cfg store (Rec.pos p)).forwarded = none) ∧
    (cfg.forwardEnabled = true → cfg.forwardOnlyValid = false →
      (processRec cfg store (Rec.pos p)).forwarded = some p) := by
  unfold processRec
  rw [h]
  refine ⟨?_, rfl, by simp [updateStore], ?_, ?_⟩
  · obtain ⟨fe, fov, faz⟩ := cfg
    cases fe <;> cases fov <;> cases hv : p.valid <;> simp [hv]
  · intro h1 h2
    obtain ⟨fe, fov, faz⟩ := cfg
    cases fe <;> simp_all
  · intro h1 h2
    obtain ⟨fe, fov, faz⟩ := cfg
    simp_all

/-- Witness for C6 at a concrete usable record: with forward-only-valid on
and valid false the record is logged but not forwarded; with
forward-only-valid off it is forwarded. -/
theorem forward_policy_spec_witness :
    (processRec ⟨true, true, false⟩ emptyStore (Rec.pos invalidFix)).forwarded = none ∧
    (processRec ⟨true, true, false⟩ emptyStore (Rec.pos invalidFix)).logged
      = some invalidFix ∧
    (processRec ⟨true, false, false⟩ emptyStore (Rec.pos invalidFix)).forwarded
      = some invalidFix := by
  have h1 := forward_policy_spec ⟨true, true, false⟩ emptyStore invalidFix (by decide)
  have h2 := forward_policy_spec ⟨true, false, false⟩ emptyStore invalidFix (by decide)
  exact ⟨h1.2.2.2.1 rfl rfl, h1.2.1, h2.2.2.2.2 rfl rfl⟩

theorem processRec_usable (cfg : Config) (store : Store) (p : PosRec)
    (h : hasUsableCoords cfg.forwardAllowZeroCoords (Rec.pos p) = true) :
    processRec cfg store (Rec.pos p)
      = { store := updateStore store p.deviceId
            { posFields := some p, lastEvent := none }
          logged := some p
          forwarded := if cfg.forwardEnabled && (!cfg.forwardOnlyValid || p.valid)
            then some p else none } := by
  unfold processRec
  rw [h]
  simp

theorem processRec_unusable (cfg : Config) (store : Store) (r : Rec)
    (h : hasUsableCoords cfg.forwardAllowZeroCoords r = false) :
    processRec cfg store r
      = { store := updateStore store r.devId
            { posFields := (match store r.devId with
                | some e => e.posFields
                | none => none)
              lastEvent := some r }
          logged := none
          forwarded := none } := by
  unfold processRec
  rw [h]
  simp

/-- C7: the Device State Store write rule: a record with usable
coordinates replaces the device's entry wholesale with the position record
alone; a record without usable coordinates writes only lastEvent, keeping
whatever position fields the existing entry had and creating an entry with
only lastEvent when none existed; consequently after a usable position R1
followed by an event R2 for the same device, the entry is exactly R1's
fields merged with lastEvent = R2. -/
theorem store_write_rule :
    (∀ cfg store p, hasUsableCoords cfg.forwardAllowZeroCoords (Rec.pos p) = true →
      (processRec cfg store (Rec.pos p)).store p.deviceId
        = some { posFields := some p, lastEvent := none }) ∧
    (∀ cfg store r, hasUsableCoords cfg.forwardAllowZeroCoords r = false →
      (processRec cfg store r).store r.devId
        = some { posFields := (match store r.devId with
                   | some e => e.posFields
                   | none => none)
                 lastEvent := some r }) ∧
    (∀ cfg store p r2, hasUsableCoords cfg.forwardAllowZeroCoords (Rec.pos p) = true →
      hasUsableCoords cfg.forwardAllowZeroCoords r2 = false →
      r2.devId = p.deviceId →
      (processRec cfg (processRec cfg store (Rec.pos p)).store r2).store p.deviceId
        = some { posFields := some p, lastEvent := some r2 }) := by
  refine ⟨?_, ?_, ?_⟩
  · intro cfg store p h
    rw [processRec_usable cfg store p h]
    simp [updateStore]
  · intro cfg store r h
    rw [processRec_unusable cfg store r h]
    simp [updateStore]
  · intro cfg store p r2 h1 h2 h3
    rw [processRec_usable cfg store p h1]
    simp only []
    rw [processRec_unusable _ _ _ h2]
    simp [updateStore, h3]

/-- Witness for C7: after the example position and then an event for the
same device, the entry holds the position's fields with lastEvent set to
the event. -/
theorem store_write_rule_witness :
    (processRec ⟨true, true, false⟩
        (processRec ⟨true, true, false⟩ emptyStore (Rec.pos gpsPos)).store
        alEvent).store "123456".data
      = some { posFields := some gpsPos, lastEvent := some alEvent } := by
  exact store_write_rule.2.2 ⟨true, true, false⟩ emptyStore gpsPos alEvent
    (by decide) (by decide) (by decide)

/-- C8: processing a single frame mutates at most the Device State Store
entry keyed by that frame's deviceId — a decode failure leaves the store
untouched and every other device's entry is unchanged — and no key is ever
removed: a device present before the frame is still present after it. -/
theorem store_frame_effect (cfg : Config) (store : Store) (frame : List Char) :
    (parseFrame frame = none → (processFrame cfg store frame).store = store) ∧
    (∀ r, parseFrame frame = some r → ∀ d, d ≠ r.devId →
      (processFrame cfg store frame).store d = store d) ∧
    (∀ d, (store d).isSome = true →
      ((processFrame cfg store frame).store d).isSome = true) := by
  refine ⟨?_, ?_, ?_⟩
  · intro h
    simp [processFrame, h]
  · intro r hr d hd
    simp only [processFrame, hr]
    cases hu : hasUsableCoords cfg.forwardAllowZeroCoords r with
    | false =>
      rw [processRec_unusable _ _ _ hu]
      exact updateStore_ne _ _ _ _ hd
    | true =>
      cases r with
      | event dd v c raw =>
        unfold processRec
        rw [hu]
        simp
      | pos p =>
        rw [processRec_usable _ _ _ hu]
        exact updateStore_ne _ _ _ _ (by simpa [Rec.devId] using hd)
  · intro d h
    cases hp : parseFrame frame with
    | none => simpa [processFrame, hp] using h
    | some r =>
      simp only [processFrame, hp]
      cases hu : hasUsableCoords cfg.forwardAllowZeroCoords r with
      | false =>
        rw [processRec_unusable _ _ _ hu]
        exact updateStore_isSome _ _ _ _ h
      | true =>
        cases r with
        | event dd v c raw =>
          unfold processRec
          rw [hu]
          simpa using h
        | pos p =>
          rw [processRec_usable _ _ _ hu]
          exact updateStore_isSome _ _ _ _ h

/-- Witness for C8: processing the example frame in a store seeded with an
unrelated device leaves that device's entry unchanged, and the device
remains present. -/
theorem store_frame_effect_witness :
    (processFrame ⟨true, true, false⟩ seededStore gpsFrame).store "999".data
      = seededStore "999".data ∧
    ((processFrame ⟨true, true, false⟩ seededStore gpsFrame).store "999".data).isSome
      = true := by
  obtain ⟨h1, h2, h3⟩ := store_frame_effect ⟨true, true, false⟩ seededStore gpsFrame
  exact ⟨h2 (Rec.pos gpsPos) (by decide) "999".data (by decide),
    h3 "999".data (by decide)⟩

theorem toIsoString_ne_nil (ms : Int) : toIsoString ms ≠ [] := by
  simp only [toIsoString]
  intro h
  rw [List.append_eq_nil] at h
  exact List.cons_ne_nil _ _ h.2

set_option maxHeartbeats 1600000 in
/-- C9: the outbound forward request always carries id, lat and lon;
timestamp exactly when the record's time is non-null (toIso never produces
the empty string, the only other falsy value a string field could take);
valid always, rendered "true"/"false"; speed exactly when speedKph is
non-null, equal to speedKph times 0.539956803 formatted to two decimals;
bearing exactly when course is non-null; and the fixed header
User-Agent: tk905-forwarder/1.0. -/
theorem forward_request_spec :
    (∀ p : PosRec, p.time ≠ some [] →
      (forwardPositionRequest p).userAgent = "tk905-forwarder/1.0".data ∧
      (forwardParams p).lookup "id".data = some p.deviceId ∧
      (forwardParams p).lookup "lat".data = some (optNumChars p.lat) ∧
      (forwardParams p).lookup "lon".data = some (optNumChars p.lon) ∧
      (forwardParams p).lookup "timestamp".data = p.time ∧
      (forwardParams p).lookup "valid".data
        = some (if p.valid then "true".data else "false".data) ∧
      (forwardParams p).lookup "speed".data
        = p.speedKph.map (fun s => toFixed2 (kphToKnots s)) ∧
      (forwardParams p).lookup "bearing".data = p.course.map jsNumChars) ∧
    (∀ dmy hms t, toIso dmy hms = some t → t ≠ []) := by
  constructor
  · intro p ht
    refine ⟨rfl, ?_, ?_, ?_, ?_, ?_, ?_, ?_⟩ <;>
      rcases hti : p.time with _ | t <;>
      rcases hsp : p.speedKph with _ | sp <;>
      rcases hco : p.course with _ | co <;>
      simp_all [forwardParams, List.lookup]
  · intro dmy hms t h
    unfold toIso at h
    by_cases h6 : (sixDigits dmy && sixDigits hms) = true
    · rw [if_pos h6] at h
      by_cases hc : (utcMillisOf dmy hms).natAbs ≤ 8640000000000000
      · rw [if_pos hc] at h
        cases h
        exact toIsoString_ne_nil _
      · rw [if_neg hc] at h
        cases h
    · rw [if_neg h6] at h
      cases h

/-- Witness for C9 at the decoded example record: all seven parameters are
present with the stated values, with speed 36 km/h rendered as 19.44
knots. -/
theorem forward_request_spec_witness :
    (forwardPositionRequest gpsPos).userAgent = "tk905-forwarder/1.0".data ∧
    (forwardParams gpsPos).lookup "id".data = some "123456".data ∧
    (forwardParams gpsPos).lookup "timestamp".data
      = some "2025-01-01T12:00:00.000Z".data ∧
    (forwardParams gpsPos).lookup "speed".data = some "19.44".data ∧
    (forwardParams gpsPos).lookup "bearing".data = some "90".data ∧
    "2025-01-01T23:59:59.000Z".data ≠ [] := by
  obtain ⟨h1, h2, h3, h4, h5, h6, h7, h8⟩ :=
    forward_request_spec.1 gpsPos (by decide)
  refine ⟨h1, h2.trans (by decide), h5.trans (by decide), h7.trans (by decide),
    h8.trans (by decide), ?_⟩
  exact forward_request_spec.2 "010125".data "235959".data
    "2025-01-01T23:59:59.000Z".data (by decide)
